import Mathlib

/-!
Verification development for the running-barcodes scanner
(src/app/BarcodeScanner.tsx).

The component state consists of `scannedData : ScannedData[]` (the
RecordList) and `currentParticipant : string | null` (the pending
participant; `null` is the Idle state, non-null is AwaitingFinish).
User-visible banners are modelled by the inductive `Notice`, one
constructor per `showBanner` call site, with `noticeText` giving the
exact banner string.  JavaScript `parseInt(data, 10)` is modelled by
`parseIntJS` following ECMA-262 (strip leading whitespace, optional
sign, longest prefix of decimal digits, NaN when no digit); the
mathematical integer value is kept exact (`Int`), the double rounding
of very large numerals being out of scope.
-/

/-- A completed record: `interface ScannedData with participant: string;
position: number`.  The position is an `Int` because `parseInt` can
produce negative values. -/
structure ScannedData where
  participant : String
  position : Int
deriving DecidableEq

/-- The component state used by `handleBarcodeScanned`:
`scannedData` (RecordList) and `currentParticipant` (pending slot). -/
structure AppState where
  scannedData : List ScannedData
  currentParticipant : Option String
deriving DecidableEq

/-- One constructor per `showBanner` call site of the source. -/
inductive Notice where
  | participantAccepted (participant : String)
  | duplicateParticipant (participant : String)
  | invalidParticipant
  | pairRecorded (participant : String) (position : Int)
  | invalidFinish
  | cleared
deriving DecidableEq

/-- The exact banner string each notice displays in the source. -/
def noticeText : Notice → String
  | .participantAccepted p =>
      "Participant QR Code scanned! Participant: " ++ p ++ ". Please scan the finish token."
  | .duplicateParticipant p =>
      "Participant QR Code already scanned! Participant: " ++ p
  | .invalidParticipant =>
      "Invalid QR Code. The QR code must start with \"G10k\"."
  | .pairRecorded p pos =>
      "Finish token scanned! Participant: " ++ p ++ ", Position: " ++ toString pos
  | .invalidFinish =>
      "Invalid Finish Token. The finish token must be a numeric value."
  | .cleared =>
      "Storage cleared. All data has been wiped."

/-- Model of JavaScript `data.startsWith('G10k')` (the string method,
expressed on the character lists). -/
def startsWithG10k (data : String) : Bool :=
  "G10k".data.isPrefixOf data.data

/-- JavaScript StrWhiteSpaceChar (the characters `parseInt` skips). -/
def isJsWhitespace (c : Char) : Bool :=
  c == ' ' || c == '\t' || c == '\n' || c == '\x0d' ||
    c == '\x0b' || c == '\x0c' || c == '\xa0' || c == Char.ofNat 0xFEFF

/-- Decimal digit test. -/
def isDigitChar (c : Char) : Bool :=
  48 ≤ c.toNat && c.toNat ≤ 57

/-- Value of a list of decimal digit characters (most significant first). -/
def digitsToNat (ds : List Char) : Nat :=
  ds.foldl (fun a c => a * 10 + (c.toNat - 48)) 0

/-- Model of JavaScript `parseInt(s, 10)`: strip leading whitespace,
read an optional sign, then the longest prefix of decimal digits;
`none` models NaN (no digit found). -/
def parseIntJS (s : String) : Option Int :=
  let cs := s.data.dropWhile isJsWhitespace
  match cs with
  | '-' :: r =>
    let ds := r.takeWhile isDigitChar
    if ds.isEmpty then none else some (-(digitsToNat ds : Int))
  | '+' :: r =>
    let ds := r.takeWhile isDigitChar
    if ds.isEmpty then none else some ((digitsToNat ds : Int))
  | r =>
    let ds := r.takeWhile isDigitChar
    if ds.isEmpty then none else some ((digitsToNat ds : Int))

/-- `handleBarcodeScanned` of the source, as a pure step function:
given the current state and the scanned payload `data`, it returns the
next state and the banner shown (if any).  It mirrors the source
line by line: in Idle (`currentParticipant` null) it checks the
"G10k" prefix and participant uniqueness; in AwaitingFinish it parses
the payload with `parseInt(data, 10)`, silently ignores a duplicate
position, and otherwise appends the record and clears the pending
participant. -/
def handleBarcodeScanned (s : AppState) (data : String) : AppState × Option Notice :=
  match s.currentParticipant with
  | none =>
    if startsWithG10k data then
      if !(s.scannedData.any fun item => item.participant == data) then
        ({ s with currentParticipant := some data }, some (.participantAccepted data))
      else
        (s, some (.duplicateParticipant data))
    else
      (s, some .invalidParticipant)
  | some cp =>
    match parseIntJS data with
    | some position =>
      if !(s.scannedData.any fun item => item.position == position) then
        ({ scannedData := s.scannedData ++ [⟨cp, position⟩], currentParticipant := none },
          some (.pairRecorded cp position))
      else
        (s, none)
    | none => (s, some .invalidFinish)

/-- `clearStorage` of the source: wipes persisted storage, sets
`scannedData` to `[]` and shows the cleared banner.  Note that the
source does not touch `currentParticipant`. -/
def clearStorage (s : AppState) : AppState × Option Notice :=
  ({ scannedData := [], currentParticipant := s.currentParticipant }, some .cleared)

/-- The character `\x7b` (opening curly brace) used by the JSON format. -/
def braceOpen : Char := Char.ofNat 123

/-- The character `\x7d` (closing curly brace) used by the JSON format. -/
def braceClose : Char := Char.ofNat 125

/-- Lowercase hexadecimal digit, as ECMA-262 JSON quoting uses. -/
def hexDigitChar (n : Nat) : Char :=
  if n < 10 then Char.ofNat (48 + n) else Char.ofNat (87 + n)

/-- ECMA-262 QuoteJSONString treatment of one character: quote and
backslash get two-character escapes, the named control characters get
`\b \t \n \f \r`, the remaining control characters get `\u00xx`, and
every other character is emitted as itself. -/
def escapeChar (c : Char) : List Char :=
  if c == '"' then ['\\', '"']
  else if c == '\\' then ['\\', '\\']
  else if c == '\x08' then ['\\', 'b']
  else if c == '\t' then ['\\', 't']
  else if c == '\n' then ['\\', 'n']
  else if c == '\x0c' then ['\\', 'f']
  else if c == '\x0d' then ['\\', 'r']
  else if c.toNat < 32 then
    ['\\', 'u', '0', '0', hexDigitChar (c.toNat / 16), hexDigitChar (c.toNat % 16)]
  else [c]

/-- A JSON string literal: quote, escaped characters, quote. -/
def quoteJsonString (s : String) : List Char :=
  '"' :: (s.data.map escapeChar).flatten ++ ['"']

/-- Decimal digit characters of a natural number, with explicit fuel
so the definition is structurally recursive. -/
def natDigitsAux : Nat → Nat → List Char
  | 0, _ => []
  | fuel + 1, n =>
    if n < 10 then [Char.ofNat (48 + n)]
    else natDigitsAux fuel (n / 10) ++ [Char.ofNat (48 + n % 10)]

/-- Decimal digit characters of a natural number, no leading zeros
(`0` gives `"0"`), as JavaScript prints integral numbers. -/
def natDigits (n : Nat) : List Char :=
  natDigitsAux (n + 1) n

/-- Decimal form of an integer, `-` followed by digits when negative. -/
def intChars (i : Int) : List Char :=
  if i < 0 then '-' :: natDigits (-i).toNat else natDigits i.toNat

/-- `JSON.stringify` of one record: the object literal with the two
keys in declaration order, no whitespace. -/
def serializeRecord (r : ScannedData) : List Char :=
  braceOpen :: quoteJsonString "participant" ++ ':' :: quoteJsonString r.participant
    ++ ',' :: quoteJsonString "position" ++ ':' :: intChars r.position ++ [braceClose]

/-- Comma-separated concatenation, as JSON array elements. -/
def commaSep : List (List Char) → List Char
  | [] => []
  | [x] => x
  | x :: xs => x ++ ',' :: commaSep xs

/-- Model of `JSON.stringify(scannedData)` as executed by
`saveScannedData` in the source: the full RecordList serialized as a
JSON array of `\x7b"participant":...,"position":...\x7d` objects. -/
def saveScannedData (l : List ScannedData) : String :=
  String.mk ('[' :: commaSep (l.map serializeRecord) ++ [']'])

/-- Hexadecimal digit value of a character, `none` otherwise. -/
def unhex (c : Char) : Option Nat :=
  if 48 ≤ c.toNat ∧ c.toNat ≤ 57 then some (c.toNat - 48)
  else if 97 ≤ c.toNat ∧ c.toNat ≤ 102 then some (c.toNat - 87)
  else if 65 ≤ c.toNat ∧ c.toNat ≤ 70 then some (c.toNat - 55)
  else none

/-- JSON single-character escapes recognized after a backslash. -/
def escMap (e : Char) : Option Char :=
  if e == '"' then some '"'
  else if e == '\\' then some '\\'
  else if e == '/' then some '/'
  else if e == 'b' then some '\x08'
  else if e == 'f' then some '\x0c'
  else if e == 'n' then some '\n'
  else if e == 'r' then some '\x0d'
  else if e == 't' then some '\t'
  else none

/-- JSON string-literal body parser (after the opening quote has been
consumed): collects characters until the closing quote, decoding
backslash escapes, rejecting raw control characters; returns the
decoded characters and the remaining input. -/
def parseJsonStringBody : List Char → Option (List Char × List Char)
  | [] => none
  | c :: cs =>
    if c == '"' then some ([], cs)
    else if c == '\\' then
      match cs with
      | [] => none
      | e :: cs2 =>
        if e == 'u' then
          match cs2 with
          | h1 :: h2 :: h3 :: h4 :: cs3 =>
            match unhex h1, unhex h2, unhex h3, unhex h4 with
            | some a, some b, some x, some d =>
              match parseJsonStringBody cs3 with
              | some (r, rest) =>
                  some (Char.ofNat (((a * 16 + b) * 16 + x) * 16 + d) :: r, rest)
              | none => none
            | _, _, _, _ => none
          | _ => none
        else
          match escMap e with
          | some ch =>
            match parseJsonStringBody cs2 with
            | some (r, rest) => some (ch :: r, rest)
            | none => none
          | none => none
    else if c.toNat < 32 then none
    else
      match parseJsonStringBody cs with
      | some (r, rest) => some (c :: r, rest)
      | none => none

/-- Consume decimal digits, accumulating their value. -/
def parseDigitsAux (acc : Nat) : List Char → Nat × List Char
  | [] => (acc, [])
  | c :: cs =>
    if isDigitChar c then parseDigitsAux (acc * 10 + (c.toNat - 48)) cs
    else (acc, c :: cs)

/-- JSON integer parser: optional minus sign, then at least one digit. -/
def parseJsonInt : List Char → Option (Int × List Char)
  | [] => none
  | c :: cs =>
    if c == '-' then
      match cs with
      | c2 :: _ =>
        if isDigitChar c2 then
          some ((-(parseDigitsAux 0 cs).fst, (parseDigitsAux 0 cs).snd))
        else none
      | [] => none
    else if isDigitChar c then
      some (((parseDigitsAux 0 (c :: cs)).fst, (parseDigitsAux 0 (c :: cs)).snd))
    else none

/-- Consume an exact sequence of characters. -/
def dropExact : List Char → List Char → Option (List Char)
  | [], cs => some cs
  | p :: ps, c :: cs => if c == p then dropExact ps cs else none
  | _ :: _, [] => none

/-- Parser for one serialized record object, in the exact shape
`JSON.stringify` produces (fixed key order, no whitespace): this is
`JSON.parse` restricted to the canonical serialization format. -/
def parseRecord (cs : List Char) : Option (ScannedData × List Char) :=
  match dropExact (braceOpen :: quoteJsonString "participant" ++ [':', '"']) cs with
  | none => none
  | some cs1 =>
    match parseJsonStringBody cs1 with
    | none => none
    | some (p, cs2) =>
      match dropExact (',' :: quoteJsonString "position" ++ [':']) cs2 with
      | none => none
      | some cs3 =>
        match parseJsonInt cs3 with
        | none => none
        | some (n, cs4) =>
          match cs4 with
          | c :: cs5 => if c == braceClose then some (⟨String.mk p, n⟩, cs5) else none
          | [] => none

/-- Parser for a non-empty comma-separated sequence of record objects;
the fuel argument bounds the number of records read. -/
def parseRecordsAux : Nat → List Char → Option (List ScannedData × List Char)
  | 0, _ => none
  | fuel + 1, cs =>
    match parseRecord cs with
    | none => none
    | some (r, cs1) =>
      match cs1 with
      | [] => some ([r], [])
      | c :: cs2 =>
        if c == ',' then
          match parseRecordsAux fuel cs2 with
          | some (rs, rest) => some (r :: rs, rest)
          | none => none
        else some ([r], c :: cs2)

/-- Model of `JSON.parse(storedData)` as executed by `loadScannedData`
in the source (which applies no further validation to the parsed
value), restricted to the canonical array-of-records format that
`saveScannedData` writes. -/
def loadScannedData (s : String) : Option (List ScannedData) :=
  match s.data with
  | '[' :: cs =>
    match cs with
    | [] => none
    | c :: cs2 =>
      if c == ']' then (if cs2.isEmpty then some [] else none)
      else
        match parseRecordsAux (c :: cs2).length (c :: cs2) with
        | some (rs, rest) => if rest == [']'] then some rs else none
        | none => none
  | _ => none

/-- States reachable from the empty initial state by any sequence of
scans (`handleBarcodeScanned`) and resets (`clearStorage`). -/
inductive Reachable : AppState → Prop where
  | init : Reachable ⟨[], none⟩
  | scan (s : AppState) (d : String) (h : Reachable s) :
      Reachable (handleBarcodeScanned s d).fst
  | reset (s : AppState) (h : Reachable s) :
      Reachable (clearStorage s).fst

/-- No two records of the list share a participant. -/
def distinctParticipants (l : List ScannedData) : Prop :=
  l.Pairwise fun a b => a.participant ≠ b.participant

/-- No two records of the list share a position. -/
def distinctPositions (l : List ScannedData) : Prop :=
  l.Pairwise fun a b => a.position ≠ b.position

/-- The inductive invariant of the scanner state: distinct
participants, distinct positions, every recorded participant carries
the "G10k" prefix, and a pending participant carries the prefix and is
not yet recorded. -/
def StateInv (s : AppState) : Prop :=
  distinctParticipants s.scannedData ∧
  distinctPositions s.scannedData ∧
  (∀ r ∈ s.scannedData, startsWithG10k r.participant = true) ∧
  (∀ cp, s.currentParticipant = some cp →
    startsWithG10k cp = true ∧ ∀ r ∈ s.scannedData, r.participant ≠ cp)

/-! ### General lemmas about the step function -/

theorem any_position_true {l : List ScannedData} {p : Int}
    (h : ∃ r ∈ l, r.position = p) :
    (l.any fun item => item.position == p) = true := by
  obtain ⟨r, hr, he⟩ := h
  exact List.any_eq_true.mpr ⟨r, hr, beq_iff_eq.mpr he⟩

theorem any_position_false {l : List ScannedData} {p : Int}
    (h : ∀ r ∈ l, r.position ≠ p) :
    (l.any fun item => item.position == p) = false := by
  rw [List.any_eq_false]
  intro r hr
  simpa using h r hr

/-! ### Claim theorems -/

/-- C4: while AwaitingFinish, a numeric payload whose parsed position
already occurs in the RecordList is a silent no-op: the whole state
(records and pending participant) is returned unchanged and no notice
is emitted. -/
theorem duplicate_position_silent_noop (s : AppState) (cp d : String) (p : Int)
    (hcp : s.currentParticipant = some cp) (hp : parseIntJS d = some p)
    (hdup : ∃ r ∈ s.scannedData, r.position = p) :
    handleBarcodeScanned s d = (s, none) := by
  simp [handleBarcodeScanned, hcp, hp, any_position_true hdup]

/-- C4 witness: scanning the already-recorded position 17 while
participant G10kB is pending changes nothing and shows no banner. -/
theorem duplicate_position_silent_noop_witness :
    handleBarcodeScanned ⟨[⟨"G10kA", 17⟩], some "G10kB"⟩ "17"
      = (⟨[⟨"G10kA", 17⟩], some "G10kB"⟩, none) :=
  duplicate_position_silent_noop ⟨[⟨"G10kA", 17⟩], some "G10kB"⟩ "G10kB" "17" 17
    rfl (by decide) ⟨⟨"G10kA", 17⟩, by decide, rfl⟩

/-- C5: while AwaitingFinish, a numeric payload whose parsed position
is fresh appends exactly the record pairing the pending participant
with that position at the end of the RecordList, clears the pending
participant (back to Idle) and emits the pair-recorded notice. -/
theorem fresh_position_records_pair (s : AppState) (cp d : String) (p : Int)
    (hcp : s.currentParticipant = some cp) (hp : parseIntJS d = some p)
    (hfresh : ∀ r ∈ s.scannedData, r.position ≠ p) :
    handleBarcodeScanned s d
      = (⟨s.scannedData ++ [⟨cp, p⟩], none⟩, some (.pairRecorded cp p)) := by
  simp [handleBarcodeScanned, hcp, hp, any_position_false hfresh]

/-- C5 witness: scanning the fresh position 18 while participant G10kB
is pending appends the pair and returns to Idle. -/
theorem fresh_position_records_pair_witness :
    handleBarcodeScanned ⟨[⟨"G10kA", 17⟩], some "G10kB"⟩ "18"
      = (⟨[⟨"G10kA", 17⟩, ⟨"G10kB", 18⟩], none⟩, some (.pairRecorded "G10kB" 18)) :=
  fresh_position_records_pair ⟨[⟨"G10kA", 17⟩], some "G10kB"⟩ "G10kB" "18" 18
    rfl (by decide) (by decide)

/-- C6: while AwaitingFinish, a payload that `parseInt` cannot parse
(NaN) leaves the state unchanged, in particular the pending
participant is kept, and the invalid-finish-token notice (the
InvalidFormat notice of the finish side) is produced. -/
theorem nonnumeric_finish_rejected (s : AppState) (cp d : String)
    (hcp : s.currentParticipant = some cp) (hp : parseIntJS d = none) :
    handleBarcodeScanned s d = (s, some .invalidFinish) := by
  simp [handleBarcodeScanned, hcp, hp]

/-- C6 witness: a non-numeric payload while G10kA is pending keeps the
state and shows the invalid-finish banner. -/
theorem nonnumeric_finish_rejected_witness :
    handleBarcodeScanned ⟨[], some "G10kA"⟩ "xyz"
      = (⟨[], some "G10kA"⟩, some .invalidFinish) :=
  nonnumeric_finish_rejected ⟨[], some "G10kA"⟩ "G10kA" "xyz" rfl (by decide)

/-- C9: for every state and payload, one scan either leaves the
RecordList unchanged or appends exactly one record at its end; it
never removes, modifies, or reorders existing records. -/
theorem submitScan_append_only (s : AppState) (d : String) :
    (handleBarcodeScanned s d).fst.scannedData = s.scannedData ∨
      ∃ r, (handleBarcodeScanned s d).fst.scannedData = s.scannedData ++ [r] := by
  rcases s with ⟨l, cp⟩
  cases cp with
  | none =>
    by_cases h1 : startsWithG10k d = true
    · by_cases h2 : (l.any fun item => item.participant == d) = true
      · left; simp [handleBarcodeScanned, h1, h2]
      · left; simp [handleBarcodeScanned, h1, h2]
    · left; simp [handleBarcodeScanned, h1]
  | some cp =>
    cases hp : parseIntJS d with
    | none => left; simp [handleBarcodeScanned, hp]
    | some p =>
      by_cases h2 : (l.any fun item => item.position == p) = true
      · left; simp [handleBarcodeScanned, hp, h2]
      · right
        exact ⟨⟨cp, p⟩, by simp [handleBarcodeScanned, hp, h2]⟩

/-- C1 counterexample: with participant G10kB pending, `clearStorage`
empties the RecordList and emits the cleared notice, but the pending
participant survives — the resulting state is not Idle, contradicting
the claim that reset always yields the Idle state. -/
theorem clearStorage_not_idle_cex :
    clearStorage ⟨[⟨"G10kA", 17⟩], some "G10kB"⟩
      = (⟨[], some "G10kB"⟩, some .cleared) ∧
    (⟨[], some "G10kB"⟩ : AppState).currentParticipant ≠ none := by
  decide

/-- C1 amended: for every prior state, `clearStorage` yields
RecordList = [] and emits the cleared notice, but it preserves the
pending participant unchanged (the source never resets
`currentParticipant` there), so a prior AwaitingFinish state stays
AwaitingFinish. -/
theorem clearStorage_clears_records (s : AppState) :
    clearStorage s = (⟨[], s.currentParticipant⟩, some .cleared) :=
  rfl

/-- C2 counterexample: with G10kA pending, scanning "-5" appends a
record whose position is the negative integer -5, and with G10kB
pending, scanning "17abc" — not a numeric string — is accepted and
records position 17. -/
theorem submit_position_not_numeral_cex :
    handleBarcodeScanned ⟨[], some "G10kA"⟩ "-5"
      = (⟨[⟨"G10kA", -5⟩], none⟩, some (.pairRecorded "G10kA" (-5))) ∧
    (-5 : Int) < 0 ∧
    handleBarcodeScanned ⟨[], some "G10kB"⟩ "17abc"
      = (⟨[⟨"G10kB", 17⟩], none⟩, some (.pairRecorded "G10kB" 17)) ∧
    "17abc".data.all isDigitChar = false := by
  decide

/-- C2 amended: every record that one scan adds to the RecordList
pairs the pending participant with the `parseInt` value of the
payload — an integer that may be negative, from a payload that need
not be a pure numeral. -/
theorem appended_record_position_from_parseInt (s : AppState) (d : String)
    (r : ScannedData) (hr : r ∈ (handleBarcodeScanned s d).fst.scannedData) :
    r ∈ s.scannedData ∨
      (s.currentParticipant = some r.participant ∧ parseIntJS d = some r.position) := by
  rcases s with ⟨l, cp⟩
  cases cp with
  | none =>
    left
    by_cases h1 : startsWithG10k d = true
    · by_cases h2 : (l.any fun item => item.participant == d) = true
      · simpa [handleBarcodeScanned, h1, h2] using hr
      · simpa [handleBarcodeScanned, h1, h2] using hr
    · simpa [handleBarcodeScanned, h1] using hr
  | some cp =>
    cases hp : parseIntJS d with
    | none =>
      left
      simpa [handleBarcodeScanned, hp] using hr
    | some p =>
      by_cases h2 : (l.any fun item => item.position == p) = true
      · left
        simpa [handleBarcodeScanned, hp, h2] using hr
      · simp [handleBarcodeScanned, hp, h2] at hr
        rcases hr with hr | hr
        · exact Or.inl hr
        · right
          rw [hr]
          exact ⟨rfl, by simp [hp]⟩

/-- C2 amended witness: the record (G10kA, -5) added by scanning "-5"
is characterized by the amended statement. -/
theorem appended_record_position_from_parseInt_witness :
    (⟨"G10kA", -5⟩ : ScannedData) ∈ ([] : List ScannedData) ∨
      ((⟨[], some "G10kA"⟩ : AppState).currentParticipant = some "G10kA" ∧
        parseIntJS "-5" = some (-5)) :=
  appended_record_position_from_parseInt ⟨[], some "G10kA"⟩ "-5" ⟨"G10kA", -5⟩
    (by decide)

/-- C10: while AwaitingFinish a payload is rejected as an invalid
finish token exactly when `parseInt(payload, 10)` is NaN; payloads
with leading whitespace, a sign, or trailing non-digit characters are
accepted, the recorded position being the parsed leading integer, as
the concrete runs on "17abc", "-5", " 42" and "+8" show. -/
theorem finish_token_iff_parseInt :
    (∀ (s : AppState) (cp d : String), s.currentParticipant = some cp →
        ((handleBarcodeScanned s d).snd = some .invalidFinish ↔ parseIntJS d = none)) ∧
    parseIntJS "17abc" = some 17 ∧ parseIntJS "-5" = some (-5) ∧
    parseIntJS " 42" = some 42 ∧ parseIntJS "+8" = some 8 ∧
    handleBarcodeScanned ⟨[], some "G10kA"⟩ "17abc"
      = (⟨[⟨"G10kA", 17⟩], none⟩, some (.pairRecorded "G10kA" 17)) := by
  refine ⟨?_, by decide, by decide, by decide, by decide, by decide⟩
  intro s cp d hcp
  cases hp : parseIntJS d with
  | none => simp [handleBarcodeScanned, hcp, hp]
  | some p =>
    by_cases h2 : (s.scannedData.any fun item => item.position == p) = true
    · simp [handleBarcodeScanned, hcp, hp, h2]
    · simp [handleBarcodeScanned, hcp, hp, h2]

/-- C10 witness: the validity criterion instantiated at a concrete
AwaitingFinish state and payload. -/
theorem finish_token_iff_parseInt_witness :
    (handleBarcodeScanned ⟨[], some "G10kA"⟩ "xyz").snd = some .invalidFinish ↔
      parseIntJS "xyz" = none :=
  finish_token_iff_parseInt.1 ⟨[], some "G10kA"⟩ "G10kA" "xyz" rfl

theorem of_any_position_false {l : List ScannedData} {p : Int}
    (h : (l.any fun item => item.position == p) = false) :
    ∀ r ∈ l, r.position ≠ p := by
  intro r hr he
  have hx := List.any_eq_false.mp h r hr
  simp [he] at hx

theorem of_any_participant_false {l : List ScannedData} {d : String}
    (h : (l.any fun item => item.participant == d) = false) :
    ∀ r ∈ l, r.participant ≠ d := by
  intro r hr he
  have hx := List.any_eq_false.mp h r hr
  simp [he] at hx

theorem any_participant_true {l : List ScannedData} {d : String}
    (h : ∃ r ∈ l, r.participant = d) :
    (l.any fun item => item.participant == d) = true := by
  obtain ⟨r, hr, he⟩ := h
  exact List.any_eq_true.mpr ⟨r, hr, beq_iff_eq.mpr he⟩

theorem StateInv_scan (s : AppState) (d : String) (h : StateInv s) :
    StateInv (handleBarcodeScanned s d).fst := by
  obtain ⟨hPart, hPos, hPrefix, hPending⟩ := h
  rcases s with ⟨l, cp⟩
  cases cp with
  | none =>
    by_cases h1 : startsWithG10k d = true
    · by_cases h2 : (l.any fun item => item.participant == d) = true
      · have he : (handleBarcodeScanned ⟨l, none⟩ d).fst = ⟨l, none⟩ := by
          simp [handleBarcodeScanned, h1, h2]
        rw [he]
        exact ⟨hPart, hPos, hPrefix, hPending⟩
      · have h2f : (l.any fun item => item.participant == d) = false := by
          simpa using h2
        have he : (handleBarcodeScanned ⟨l, none⟩ d).fst = ⟨l, some d⟩ := by
          simp [handleBarcodeScanned, h1, h2f]
        rw [he]
        refine ⟨hPart, hPos, hPrefix, ?_⟩
        intro cp hcp
        cases hcp
        exact ⟨h1, of_any_participant_false h2f⟩
    · have he : (handleBarcodeScanned ⟨l, none⟩ d).fst = ⟨l, none⟩ := by
        simp [handleBarcodeScanned, h1]
      rw [he]
      exact ⟨hPart, hPos, hPrefix, hPending⟩
  | some cp =>
    cases hp : parseIntJS d with
    | none =>
      have he : (handleBarcodeScanned ⟨l, some cp⟩ d).fst = ⟨l, some cp⟩ := by
        simp [handleBarcodeScanned, hp]
      rw [he]
      exact ⟨hPart, hPos, hPrefix, hPending⟩
    | some p =>
      by_cases h2 : (l.any fun item => item.position == p) = true
      · have he : (handleBarcodeScanned ⟨l, some cp⟩ d).fst = ⟨l, some cp⟩ := by
          simp [handleBarcodeScanned, hp, h2]
        rw [he]
        exact ⟨hPart, hPos, hPrefix, hPending⟩
      · have h2f : (l.any fun item => item.position == p) = false := by
          simpa using h2
        have he : (handleBarcodeScanned ⟨l, some cp⟩ d).fst
            = ⟨l ++ [⟨cp, p⟩], none⟩ := by
          simp [handleBarcodeScanned, hp, h2f]
        rw [he]
        have hcp := hPending cp rfl
        have hfresh := of_any_position_false h2f
        refine ⟨?_, ?_, ?_, ?_⟩
        · rw [distinctParticipants, List.pairwise_append]
          refine ⟨hPart, List.pairwise_singleton _ _, ?_⟩
          intro a ha b hb
          have hb2 : b = ⟨cp, p⟩ := by simpa using hb
          rw [hb2]
          exact hcp.2 a ha
        · rw [distinctPositions, List.pairwise_append]
          refine ⟨hPos, List.pairwise_singleton _ _, ?_⟩
          intro a ha b hb
          have hb2 : b = ⟨cp, p⟩ := by simpa using hb
          rw [hb2]
          exact hfresh a ha
        · intro r hr
          rcases List.mem_append.mp hr with hr | hr
          · exact hPrefix r hr
          · have hr2 : r = ⟨cp, p⟩ := by simpa using hr
            rw [hr2]
            exact hcp.1
        · intro cp' hcp'
          cases hcp'

theorem StateInv_reachable (s : AppState) (h : Reachable s) : StateInv s := by
  induction h with
  | init =>
    exact ⟨List.Pairwise.nil, List.Pairwise.nil, by simp, by simp⟩
  | scan s d _ ih => exact StateInv_scan s d ih
  | reset s _ ih =>
    obtain ⟨_, _, _, hPending⟩ := ih
    have he : (clearStorage s).fst = ⟨[], s.currentParticipant⟩ := rfl
    rw [he]
    refine ⟨List.Pairwise.nil, List.Pairwise.nil, by simp, ?_⟩
    intro cp hcp
    exact ⟨(hPending cp hcp).1, by simp⟩

/-- C3: in every state reachable from the empty initial state by scans
and resets, there is at most one pending participant, no two records
share a participant, and no two records share a position. -/
theorem reachable_state_unique (s : AppState) (h : Reachable s) :
    (∀ p q : String, s.currentParticipant = some p → s.currentParticipant = some q → p = q) ∧
    distinctParticipants s.scannedData ∧ distinctPositions s.scannedData := by
  have hi := StateInv_reachable s h
  refine ⟨?_, hi.1, hi.2.1⟩
  intro p q hp hq
  rw [hp] at hq
  injection hq

/-- C3 witness: the uniqueness properties at the reachable state
obtained by scanning G10kA and then the finish token 17. -/
theorem reachable_state_unique_witness :
    distinctParticipants
        (handleBarcodeScanned (handleBarcodeScanned ⟨[], none⟩ "G10kA").fst "17").fst.scannedData ∧
    distinctPositions
        (handleBarcodeScanned (handleBarcodeScanned ⟨[], none⟩ "G10kA").fst "17").fst.scannedData :=
  (reachable_state_unique _
    (Reachable.scan _ "17" (Reachable.scan _ "G10kA" Reachable.init))).2

/-- C7: in any reachable Idle state, resubmitting a payload that is
already recorded as a participant is rejected: the state (including
the empty pending slot) is unchanged and the duplicate-participant
notice (the DuplicateEntry notice) is produced.  Reachability supplies
the fact that every recorded participant carries the "G10k" prefix,
so the duplicate branch of the source is the one taken. -/
theorem resubmit_recorded_participant_rejected (s : AppState) (d : String)
    (hreach : Reachable s) (hidle : s.currentParticipant = none)
    (hdup : ∃ r ∈ s.scannedData, r.participant = d) :
    handleBarcodeScanned s d = (s, some (.duplicateParticipant d)) := by
  have hi := StateInv_reachable s hreach
  obtain ⟨r, hr, he⟩ := hdup
  have hpre : startsWithG10k d = true := he ▸ hi.2.2.1 r hr
  have hany := any_participant_true ⟨r, hr, he⟩
  rcases s with ⟨l, cp⟩
  simp only [] at hidle
  subst hidle
  simp [handleBarcodeScanned, hpre, hany]

/-- C7 witness: after recording (G10kA, 17), rescanning G10kA while
Idle is rejected with the duplicate-participant notice. -/
theorem resubmit_recorded_participant_rejected_witness :
    handleBarcodeScanned
        (handleBarcodeScanned (handleBarcodeScanned ⟨[], none⟩ "G10kA").fst "17").fst "G10kA"
      = ((handleBarcodeScanned (handleBarcodeScanned ⟨[], none⟩ "G10kA").fst "17").fst,
          some (.duplicateParticipant "G10kA")) :=
  resubmit_recorded_participant_rejected _ "G10kA"
    (Reachable.scan _ "17" (Reachable.scan _ "G10kA" Reachable.init))
    (by decide) ⟨⟨"G10kA", 17⟩, by decide, rfl⟩

/-! ### Serialization round trip (C8) -/

theorem char_toNat_ofNat {n : Nat} (h : Nat.isValidChar n) :
    (Char.ofNat n).toNat = n := by
  unfold Char.ofNat
  rw [dif_pos h]
  rfl

theorem isValidChar_of_lt {n : Nat} (h : n < 55296) : Nat.isValidChar n :=
  Or.inl h

theorem toNat_digitChar {d : Nat} (h : d < 10) :
    (Char.ofNat (48 + d)).toNat = 48 + d :=
  char_toNat_ofNat (isValidChar_of_lt (by omega))

theorem isDigitChar_digitChar {d : Nat} (h : d < 10) :
    isDigitChar (Char.ofNat (48 + d)) = true := by
  simp [isDigitChar, toNat_digitChar h]
  omega

theorem natDigitsAux_all_digits :
    ∀ (fuel n : Nat), n < fuel → ∀ c ∈ natDigitsAux fuel n, isDigitChar c = true := by
  intro fuel
  induction fuel with
  | zero => intro n h; omega
  | succ f ih =>
    intro n h c hc
    by_cases h10 : n < 10
    · simp [natDigitsAux, h10] at hc
      rw [hc]
      exact isDigitChar_digitChar h10
    · simp [natDigitsAux, h10] at hc
      rcases hc with hc | hc
      · exact ih (n / 10) (by omega) c hc
      · rw [hc]
        exact isDigitChar_digitChar (by omega)

theorem natDigitsAux_ne_nil :
    ∀ (fuel n : Nat), n < fuel → natDigitsAux fuel n ≠ [] := by
  intro fuel n h
  cases fuel with
  | zero => omega
  | succ f =>
    by_cases h10 : n < 10
    · simp [natDigitsAux, h10]
    · simp [natDigitsAux, h10]

theorem natDigitsAux_foldl :
    ∀ (fuel n acc : Nat), n < fuel →
      (natDigitsAux fuel n).foldl (fun a c => a * 10 + (c.toNat - 48)) acc
        = acc * 10 ^ (natDigitsAux fuel n).length + n := by
  intro fuel
  induction fuel with
  | zero => intro n acc h; omega
  | succ f ih =>
    intro n acc h
    by_cases h10 : n < 10
    · simp [natDigitsAux, h10, toNat_digitChar h10]
    · rw [natDigitsAux, if_neg h10, List.foldl_append, ih (n / 10) acc (by omega)]
      simp [toNat_digitChar (show n % 10 < 10 by omega)]
      rw [pow_succ, ← mul_assoc]
      have hdm := Nat.div_add_mod n 10
      generalize acc * 10 ^ (natDigitsAux f (n / 10)).length = A
      omega

theorem parseDigitsAux_digits :
    ∀ (ds : List Char) (acc : Nat) (rest : List Char),
      (∀ c ∈ ds, isDigitChar c = true) →
      parseDigitsAux acc (ds ++ rest)
        = parseDigitsAux (ds.foldl (fun a c => a * 10 + (c.toNat - 48)) acc) rest := by
  intro ds
  induction ds with
  | nil => intro acc rest _; rfl
  | cons c cs ih =>
    intro acc rest h
    rw [List.cons_append, parseDigitsAux, if_pos (h c (by simp))]
    rw [ih _ rest (fun x hx => h x (by simp [hx]))]
    rfl

theorem parseDigitsAux_stop (acc : Nat) (rest : List Char)
    (h : ∀ c, rest.head? = some c → isDigitChar c = false) :
    parseDigitsAux acc rest = (acc, rest) := by
  cases rest with
  | nil => rfl
  | cons c cs =>
    rw [parseDigitsAux, if_neg]
    simp [h c rfl]

theorem parseDigitsAux_natDigits (n : Nat) (rest : List Char)
    (h : ∀ c, rest.head? = some c → isDigitChar c = false) :
    parseDigitsAux 0 (natDigits n ++ rest) = (n, rest) := by
  rw [natDigits, parseDigitsAux_digits _ _ _ (natDigitsAux_all_digits (n + 1) n (by omega)),
    natDigitsAux_foldl (n + 1) n 0 (by omega)]
  simpa using parseDigitsAux_stop n rest h

theorem natDigits_head_digit (n : Nat) :
    ∃ c t, natDigits n = c :: t ∧ isDigitChar c = true := by
  rcases hcons : natDigits n with _ | ⟨c, t⟩
  · exact absurd hcons (natDigitsAux_ne_nil (n + 1) n (by omega))
  · refine ⟨c, t, rfl, ?_⟩
    exact natDigitsAux_all_digits (n + 1) n (by omega) c (by rw [natDigits] at hcons; rw [hcons]; simp)

theorem digit_ne_minus {c : Char} (h : isDigitChar c = true) : (c == '-') = false := by
  rw [beq_eq_false_iff_ne]
  intro he
  rw [he] at h
  simp [isDigitChar] at h

theorem parseJsonInt_intChars (i : Int) (rest : List Char)
    (h : ∀ c, rest.head? = some c → isDigitChar c = false) :
    parseJsonInt (intChars i ++ rest) = some (i, rest) := by
  by_cases hneg : i < 0
  · rw [intChars, if_pos hneg]
    obtain ⟨c, t, hct, hdig⟩ := natDigits_head_digit (-i).toNat
    rw [List.cons_append, parseJsonInt.eq_def, hct, List.cons_append]
    simp only [beq_self_eq_true, if_true, hdig]
    rw [← List.cons_append, ← hct, parseDigitsAux_natDigits _ _ h]
    have h2 : ((-i).toNat : Int) = -i := Int.toNat_of_nonneg (by omega)
    simp [h2]
  · rw [intChars, if_neg hneg]
    obtain ⟨c, t, hct, hdig⟩ := natDigits_head_digit i.toNat
    rw [hct, List.cons_append, parseJsonInt.eq_def]
    simp only [digit_ne_minus hdig, hdig, Bool.false_eq_true, if_false, if_true]
    rw [← List.cons_append, ← hct, parseDigitsAux_natDigits _ _ h]
    have h2 : (i.toNat : Int) = i := Int.toNat_of_nonneg (by omega)
    simp [h2]

theorem dropExact_append (pre rest : List Char) :
    dropExact pre (pre ++ rest) = some rest := by
  induction pre with
  | nil => rfl
  | cons c cs ih => simp [dropExact, ih]

theorem unhex_hexDigitChar {d : Nat} (h : d < 16) :
    unhex (hexDigitChar d) = some d := by
  by_cases h10 : d < 10
  · rw [hexDigitChar, if_pos h10, unhex, if_pos]
    · rw [char_toNat_ofNat (isValidChar_of_lt (by omega))]
      simp only [Option.some.injEq]
      omega
    · rw [char_toNat_ofNat (isValidChar_of_lt (by omega))]
      omega
  · rw [hexDigitChar, if_neg h10, unhex]
    rw [if_neg, if_pos]
    · rw [char_toNat_ofNat (isValidChar_of_lt (by omega))]
      simp only [Option.some.injEq]
      omega
    · rw [char_toNat_ofNat (isValidChar_of_lt (by omega))]
      omega
    · rw [char_toNat_ofNat (isValidChar_of_lt (by omega))]
      omega

theorem parseJsonStringBody_escapeChar (c : Char) (t r rest : List Char)
    (h : parseJsonStringBody t = some (r, rest)) :
    parseJsonStringBody (escapeChar c ++ t) = some (c :: r, rest) := by
  by_cases h1 : c = '"'
  · subst h1
    simp +decide [escapeChar]
    rw [parseJsonStringBody.eq_def]
    simp +decide [escMap]
    rw [h]
  ·
    by_cases h2 : c = '\\'
    · subst h2
      simp +decide [escapeChar]
      rw [parseJsonStringBody.eq_def]
      simp +decide [escMap]
      rw [h]
    ·
      by_cases h3 : c = '\x08'
      · subst h3
        simp +decide [escapeChar]
        rw [parseJsonStringBody.eq_def]
        simp +decide [escMap]
        rw [h]
      ·
        by_cases h4 : c = '\t'
        · subst h4
          simp +decide [escapeChar]
          rw [parseJsonStringBody.eq_def]
          simp +decide [escMap]
          rw [h]
        ·
          by_cases h5 : c = '\n'
          · subst h5
            simp +decide [escapeChar]
            rw [parseJsonStringBody.eq_def]
            simp +decide [escMap]
            rw [h]
          ·
            by_cases h6 : c = '\x0c'
            · subst h6
              simp +decide [escapeChar]
              rw [parseJsonStringBody.eq_def]
              simp +decide [escMap]
              rw [h]
            ·
              by_cases h7 : c = '\x0d'
              · subst h7
                simp +decide [escapeChar]
                rw [parseJsonStringBody.eq_def]
                simp +decide [escMap]
                rw [h]
              ·
                by_cases h8 : c.toNat < 32
                · rw [escapeChar]
                  rw [if_neg (by simp [h1]), if_neg (by simp [h2]), if_neg (by simp [h3]),
                    if_neg (by simp [h4]), if_neg (by simp [h5]), if_neg (by simp [h6]),
                    if_neg (by simp [h7]), if_pos h8]
                  have hhi : c.toNat / 16 < 16 := by omega
                  have hlo : c.toNat % 16 < 16 := by omega
                  rw [List.cons_append, parseJsonStringBody.eq_def]
                  simp +decide [unhex_hexDigitChar hhi, unhex_hexDigitChar hlo, h]
                  rw [show unhex '0' = some 0 from rfl]
                  show some (Char.ofNat (((0 * 16 + 0) * 16 + c.toNat / 16) * 16 + c.toNat % 16)
                      :: r, rest) = some (c :: r, rest)
                  have hval : ((0 * 16 + 0) * 16 + c.toNat / 16) * 16 + c.toNat % 16 = c.toNat := by
                    omega
                  rw [hval, Char.ofNat_toNat]
                · rw [escapeChar]
                  rw [if_neg (by simp [h1]), if_neg (by simp [h2]), if_neg (by simp [h3]),
                    if_neg (by simp [h4]), if_neg (by simp [h5]), if_neg (by simp [h6]),
                    if_neg (by simp [h7]), if_neg h8]
                  rw [List.singleton_append, parseJsonStringBody.eq_def]
                  simp only []
                  rw [if_neg (by simp [h1]), if_neg (by simp [h2]), if_neg (by simp [h8]), h]

theorem parseJsonStringBody_escaped (chars : List Char) :
    ∀ (t r rest : List Char), parseJsonStringBody t = some (r, rest) →
      parseJsonStringBody ((chars.map escapeChar).flatten ++ t) = some (chars ++ r, rest) := by
  induction chars with
  | nil => intro t r rest h; simpa using h
  | cons c cs ih =>
    intro t r rest h
    rw [List.map_cons, List.flatten_cons, List.append_assoc]
    exact parseJsonStringBody_escapeChar c _ _ _ (ih t r rest h)

theorem parseJsonStringBody_quoted (s : String) (rest : List Char) :
    parseJsonStringBody ((s.data.map escapeChar).flatten ++ '"' :: rest)
      = some (s.data, rest) := by
  have h0 : parseJsonStringBody ('"' :: rest) = some ([], rest) := by
    rw [parseJsonStringBody.eq_def]
    simp +decide
  simpa using parseJsonStringBody_escaped s.data ('"' :: rest) [] rest h0

theorem string_mk_data (s : String) : String.mk s.data = s := rfl

theorem parseRecord_serializeRecord (r : ScannedData) (rest : List Char) :
    parseRecord (serializeRecord r ++ rest) = some (r, rest) := by
  have harr : serializeRecord r ++ rest
      = ((braceOpen :: quoteJsonString "participant") ++ [':', '"'])
        ++ ((r.participant.data.map escapeChar).flatten
          ++ '"' :: (((',' :: quoteJsonString "position") ++ [':'])
            ++ (intChars r.position ++ braceClose :: rest))) := by
    simp [serializeRecord, quoteJsonString]
  have hint : parseJsonInt (intChars r.position ++ braceClose :: rest)
      = some (r.position, braceClose :: rest) := by
    refine parseJsonInt_intChars r.position (braceClose :: rest) ?_
    intro c hc
    simp at hc
    rw [← hc]
    decide
  rw [harr, parseRecord, dropExact_append]
  simp only [parseJsonStringBody_quoted, dropExact_append, hint, beq_self_eq_true, if_true,
    string_mk_data]

theorem commaSep_cons (x : List Char) (y : List (List Char)) (hy : y ≠ []) :
    commaSep (x :: y) = x ++ ',' :: commaSep y := by
  cases y with
  | nil => exact absurd rfl hy
  | cons z zs => rfl

theorem parseRecordsAux_commaSep :
    ∀ (l : List ScannedData) (r : ScannedData) (fuel : Nat) (rest : List Char),
      l.length < fuel →
      (∀ c, rest.head? = some c → (c == ',') = false) →
      parseRecordsAux fuel (commaSep ((r :: l).map serializeRecord) ++ rest)
        = some (r :: l, rest) := by
  intro l
  induction l with
  | nil =>
    intro r fuel rest hf hr
    cases fuel with
    | zero => omega
    | succ f =>
      rw [List.map_cons, List.map_nil]
      show parseRecordsAux (f + 1) (serializeRecord r ++ rest) = some ([r], rest)
      rw [parseRecordsAux, parseRecord_serializeRecord]
      cases rest with
      | nil => rfl
      | cons c cs2 =>
        simp only []
        rw [if_neg (by simp [hr c rfl])]
  | cons r2 l2 ih =>
    intro r fuel rest hf hr
    cases fuel with
    | zero => simp at hf
    | succ f =>
      rw [List.map_cons, commaSep_cons _ _ (by simp), List.append_assoc, List.cons_append]
      rw [parseRecordsAux, parseRecord_serializeRecord]
      simp only []
      rw [if_pos (by simp)]
      rw [ih r2 f rest (by simp only [List.length_cons] at hf; omega) hr]

theorem commaSep_length_ge :
    ∀ (l : List ScannedData), l.length ≤ (commaSep (l.map serializeRecord)).length := by
  intro l
  induction l with
  | nil => simp [commaSep]
  | cons r l2 ih =>
    cases l2 with
    | nil =>
      show 1 ≤ (commaSep [serializeRecord r]).length
      show 1 ≤ (serializeRecord r).length
      simp [serializeRecord]
    | cons r2 l3 =>
      rw [List.map_cons, commaSep_cons _ _ (by simp)]
      simp only [List.length_append, List.length_cons] at *
      omega

theorem commaSep_serialize_head (r : ScannedData) (l2 : List ScannedData) :
    ∃ T, commaSep ((r :: l2).map serializeRecord) = braceOpen :: T := by
  cases l2 with
  | nil =>
    refine ⟨quoteJsonString "participant" ++ ':' :: quoteJsonString r.participant
      ++ ',' :: quoteJsonString "position" ++ ':' :: intChars r.position ++ [braceClose], ?_⟩
    rfl
  | cons r2 l3 =>
    rw [List.map_cons, commaSep_cons _ _ (by simp)]
    refine ⟨(quoteJsonString "participant" ++ ':' :: quoteJsonString r.participant
      ++ ',' :: quoteJsonString "position" ++ ':' :: intChars r.position ++ [braceClose])
        ++ ',' :: commaSep ((r2 :: l3).map serializeRecord), ?_⟩
    rw [serializeRecord]
    simp

/-- C8: persisting any RecordList with `JSON.stringify` and parsing
the stored string back, as the save and load effects of the source do,
returns the identical ordered sequence of records (including
participant strings that need JSON escaping and negative positions). -/
theorem loadScannedData_saveScannedData (l : List ScannedData) :
    loadScannedData (saveScannedData l) = some l := by
  cases l with
  | nil => rfl
  | cons r l2 =>
    obtain ⟨T, hT⟩ := commaSep_serialize_head r l2
    rw [saveScannedData, loadScannedData]
    rw [show (String.mk (('[' :: commaSep ((r :: l2).map serializeRecord)) ++ [']'])).data
        = '[' :: (commaSep ((r :: l2).map serializeRecord) ++ [']']) from rfl]
    simp only []
    rw [hT, List.cons_append]
    simp only []
    rw [if_neg (by decide)]
    rw [← List.cons_append, ← hT]
    rw [parseRecordsAux_commaSep l2 r _ [']']
      (by
        have := commaSep_length_ge (r :: l2)
        simp only [List.length_cons, List.length_append] at *
        omega)
      (by intro c hc; simp at hc; rw [← hc]; decide)]
    simp
